import Mathlib

/-!
Verification of the computational-geometry kernel of the crystal-lattice
simulator: lattice generation, bond generation, unit-cell construction,
Miller-plane mathematics and plane/box clipping.

Modelling conventions.

JavaScript numbers are modelled as exact rationals (`ℚ`): every JS float is a
rational, and the kernel's arithmetic (`+ - * /`) is modelled exactly, with
the Lean convention `q / 0 = 0` replacing the IEEE `±Infinity`/`NaN` results
(noted at each theorem where it matters).  The JS value `Infinity` returned
by `computePlane` for a zero reciprocal vector is modelled by `⊤ : WithTop ℚ`.

`Math.sqrt` is modelled by `Rat.sqrt`, which is exact whenever the argument
is a perfect rational square.  All magnitudes actually evaluated in the
theorems below are of this kind (`Rat.sqrt_eq` gives `sqrt (q*q) = |q|`);
the remaining theorems depend only on `Rat.sqrt q` being `0` at `0` and
positive on positives, which agrees with the real square root.
`Math.sqrt`-free comparisons `dist ≤ cutoff` in `generateBonds` are modelled
by the equivalent squared comparison (see `generateBonds` below), and the
claim-level theorems restate them through `Real.sqrt` to match the source.

`Math.round` in JS rounds half away from zero upward (`round(0.5) = 1`,
`round(-0.5) = 0`), i.e. `⌊x + 1/2⌋`; `jsRound` below is exactly that.
The JS `Set` of string keys `"${i},${j},${k}"` over integer triples is
modelled by a list of integer triples (the string encoding is injective on
such triples).
-/

namespace CrystalLattice

/-- JS `Math.round`: rounds half up, `⌊x + 1/2⌋`. -/
def jsRound (q : ℚ) : ℤ := ⌊q + 1/2⌋

/-- A 3-component vector, the `[x, y, z]` arrays of the source. -/
structure Vec3 where
  x : ℚ
  y : ℚ
  z : ℚ
deriving DecidableEq, Repr

/-- Source `cross(a, b)`. -/
def cross (a b : Vec3) : Vec3 :=
  ⟨a.y * b.z - a.z * b.y, a.z * b.x - a.x * b.z, a.x * b.y - a.y * b.x⟩

/-- Source `dot(a, b)`. -/
def dot (a b : Vec3) : ℚ :=
  a.x * b.x + a.y * b.y + a.z * b.z

/-- Source `scale(v, s)`. -/
def scale (v : Vec3) (s : ℚ) : Vec3 :=
  ⟨v.x * s, v.y * s, v.z * s⟩

/-- Source `add(a, b)`. -/
def add (a b : Vec3) : Vec3 :=
  ⟨a.x + b.x, a.y + b.y, a.z + b.z⟩

/-- Source `magnitude(v) = Math.sqrt(v₀² + v₁² + v₂²)`, modelled with the
exact rational square root (see the header). -/
def magnitude (v : Vec3) : ℚ :=
  Rat.sqrt (v.x * v.x + v.y * v.y + v.z * v.z)

/-- Source `normalize(v)`: `m > 0 ? v/m : [0,0,0]`. -/
def normalize (v : Vec3) : Vec3 :=
  let m := magnitude v
  if 0 < m then ⟨v.x / m, v.y / m, v.z / m⟩ else ⟨0, 0, 0⟩

/-- Result record of `computePlane`; `dSpacing` is a `WithTop ℚ` so that the
JS `Infinity` branch is the value `⊤`. -/
structure PlaneResult where
  planeNormal : Vec3
  dSpacing : WithTop ℚ
  G : Vec3
deriving DecidableEq

/-- Source `computePlane(h, k, l, vectors, a)` from the Miller-plane module:
scales the three lattice vectors by `a`, builds the reciprocal vectors
`bᵢ = crossᵢ / vol`, forms `G = h·b1 + k·b2 + l·b3`, and returns the unit
normal, `dSpacing = Gmag > 0 ? 1/Gmag : Infinity`, and `G`. -/
def computePlane (hI kI lI : ℚ) (vectors : Vec3 × Vec3 × Vec3) (a : ℚ) : PlaneResult :=
  let a1 := scale vectors.1 a
  let a2 := scale vectors.2.1 a
  let a3 := scale vectors.2.2 a
  let a2xa3 := cross a2 a3
  let vol := dot a1 a2xa3
  let b1 := scale (cross a2 a3) (1 / vol)
  let b2 := scale (cross a3 a1) (1 / vol)
  let b3 := scale (cross a1 a2) (1 / vol)
  let G := add (add (scale b1 hI) (scale b2 kI)) (scale b3 lI)
  let Gmag := magnitude G
  { planeNormal := normalize G
    dSpacing := if 0 < Gmag then ((1 / Gmag : ℚ) : WithTop ℚ) else ⊤
    G := G }

/-- Reciprocal vector `b1 = (a2 × a3) / V` written as in the spec
(`V = a1 · (a2 × a3)`, all vectors pre-scaled by the lattice constant). -/
def recipB1 (v : Vec3 × Vec3 × Vec3) (a : ℚ) : Vec3 :=
  scale (cross (scale v.2.1 a) (scale v.2.2 a))
    (1 / dot (scale v.1 a) (cross (scale v.2.1 a) (scale v.2.2 a)))

/-- Reciprocal vector `b2 = (a3 × a1) / V` written as in the spec. -/
def recipB2 (v : Vec3 × Vec3 × Vec3) (a : ℚ) : Vec3 :=
  scale (cross (scale v.2.2 a) (scale v.1 a))
    (1 / dot (scale v.1 a) (cross (scale v.2.1 a) (scale v.2.2 a)))

/-- Reciprocal vector `b3 = (a1 × a2) / V` written as in the spec. -/
def recipB3 (v : Vec3 × Vec3 × Vec3) (a : ℚ) : Vec3 :=
  scale (cross (scale v.1 a) (scale v.2.1 a))
    (1 / dot (scale v.1 a) (cross (scale v.2.1 a) (scale v.2.2 a)))

/-- Identity lattice vectors (the cubic `vectors` of the catalog). -/
def cubicVectors : Vec3 × Vec3 × Vec3 := (⟨1, 0, 0⟩, ⟨0, 1, 0⟩, ⟨0, 0, 1⟩)

/-- Coplanar lattice vectors (`a2 = a1`): scalar triple product 0. -/
def degenerateVectors : Vec3 × Vec3 × Vec3 := (⟨1, 0, 0⟩, ⟨1, 0, 0⟩, ⟨0, 0, 1⟩)

/-- Helper: whenever the computed `G` has magnitude `0`, `computePlane`
returns the sentinel pair `dSpacing = ⊤`, `planeNormal = 0`. -/
theorem computePlane_sentinel (hI kI lI : ℚ) (v : Vec3 × Vec3 × Vec3) (a : ℚ)
    (hm : magnitude (computePlane hI kI lI v a).G = 0) :
    (computePlane hI kI lI v a).dSpacing = ⊤ ∧
      (computePlane hI kI lI v a).planeNormal = ⟨0, 0, 0⟩ := by
  have hnot : ¬ 0 < magnitude (computePlane hI kI lI v a).G := by
    rw [hm]; exact lt_irrefl 0
  constructor
  · show (if 0 < magnitude (computePlane hI kI lI v a).G
        then ((1 / magnitude (computePlane hI kI lI v a).G : ℚ) : WithTop ℚ) else ⊤) = ⊤
    exact if_neg hnot
  · show normalize (computePlane hI kI lI v a).G = ⟨0, 0, 0⟩
    unfold normalize
    exact if_neg hnot

/-- Claim C1: `computePlane` computes the reciprocal lattice vectors by the
standard construction `b1 = (a2×a3)/V`, `b2 = (a3×a1)/V`, `b3 = (a1×a2)/V`
with `V = a1·(a2×a3)` over the vectors scaled by the lattice constant, and
`G = h·b1 + k·b2 + l·b3`; in particular for identity lattice vectors and
indices `(1,0,0)` it returns `planeNormal = (1,0,0)`, `dSpacing = a` and
`G = (1/a, 0, 0)` for every `a > 0`. -/
theorem computePlane_identity_C1 :
    (∀ (hI kI lI : ℚ) (v : Vec3 × Vec3 × Vec3) (a : ℚ),
        (computePlane hI kI lI v a).G =
          add (add (scale (recipB1 v a) hI) (scale (recipB2 v a) kI))
            (scale (recipB3 v a) lI)) ∧
    (∀ a : ℚ, 0 < a →
        computePlane 1 0 0 cubicVectors a =
          { planeNormal := ⟨1, 0, 0⟩, dSpacing := ((a : ℚ) : WithTop ℚ),
            G := ⟨1 / a, 0, 0⟩ }) := by
  constructor
  · intro hI kI lI v a
    rfl
  · intro a ha
    have ha0 : a ≠ 0 := ne_of_gt ha
    have hG : (computePlane 1 0 0 cubicVectors a).G = ⟨1 / a, 0, 0⟩ := by
      show add (add (scale (scale (cross (scale ⟨0,1,0⟩ a) (scale ⟨0,0,1⟩ a))
          (1 / dot (scale ⟨1,0,0⟩ a) (cross (scale ⟨0,1,0⟩ a) (scale ⟨0,0,1⟩ a)))) 1) _) _ = _
      simp only [cross, dot, scale, add, cubicVectors]
      refine Vec3.mk.injEq _ _ _ _ _ _ |>.mpr ⟨?_, ?_, ?_⟩ <;> (field_simp; try ring)
    have hmag : magnitude (computePlane 1 0 0 cubicVectors a).G = 1 / a := by
      rw [hG]
      show Rat.sqrt (1 / a * (1 / a) + 0 * 0 + 0 * 0) = 1 / a
      rw [show (1 / a * (1 / a) + 0 * 0 + 0 * 0 : ℚ) = 1 / a * (1 / a) by ring,
        Rat.sqrt_eq, abs_of_pos (by positivity)]
    have hpos : 0 < magnitude (computePlane 1 0 0 cubicVectors a).G := by
      rw [hmag]; positivity
    have hD : (computePlane 1 0 0 cubicVectors a).dSpacing = ((a : ℚ) : WithTop ℚ) := by
      show (if 0 < magnitude (computePlane 1 0 0 cubicVectors a).G
          then ((1 / magnitude (computePlane 1 0 0 cubicVectors a).G : ℚ) : WithTop ℚ)
          else ⊤) = ((a : ℚ) : WithTop ℚ)
      rw [if_pos hpos, hmag, one_div_one_div]
    have hN : (computePlane 1 0 0 cubicVectors a).planeNormal = ⟨1, 0, 0⟩ := by
      show normalize (computePlane 1 0 0 cubicVectors a).G = ⟨1, 0, 0⟩
      unfold normalize
      rw [if_pos hpos, hmag, hG]
      refine Vec3.mk.injEq _ _ _ _ _ _ |>.mpr ⟨?_, ?_, ?_⟩ <;> field_simp
    calc computePlane 1 0 0 cubicVectors a
        = { planeNormal := (computePlane 1 0 0 cubicVectors a).planeNormal,
            dSpacing := (computePlane 1 0 0 cubicVectors a).dSpacing,
            G := (computePlane 1 0 0 cubicVectors a).G } := rfl
      _ = _ := by rw [hG, hD, hN]

/-- Witness for C1 at `a = 2`. -/
theorem computePlane_identity_C1_witness :
    (0 : ℚ) < 2 ∧
      computePlane 1 0 0 cubicVectors 2 =
        { planeNormal := ⟨1, 0, 0⟩, dSpacing := ((2 : ℚ) : WithTop ℚ),
          G := ⟨1 / 2, 0, 0⟩ } :=
  ⟨by norm_num, computePlane_identity_C1.2 2 (by norm_num)⟩

/-- Claim C2: for any lattice vectors with nonzero volume and any `a > 0`,
`computePlane(0,0,0, vectors, a)` yields `dSpacing = ⊤` (the JS `Infinity`)
and `planeNormal = (0,0,0)`; and in general whenever the reciprocal vector
`G` has magnitude `0`, `computePlane` reports the sentinel pair instead of a
numeric fault. -/
theorem computePlane_zero_indices_C2 :
    (∀ (v : Vec3 × Vec3 × Vec3) (a : ℚ),
        dot v.1 (cross v.2.1 v.2.2) ≠ 0 → 0 < a →
        (computePlane 0 0 0 v a).dSpacing = ⊤ ∧
          (computePlane 0 0 0 v a).planeNormal = ⟨0, 0, 0⟩) ∧
    (∀ (hI kI lI : ℚ) (v : Vec3 × Vec3 × Vec3) (a : ℚ),
        magnitude (computePlane hI kI lI v a).G = 0 →
        (computePlane hI kI lI v a).dSpacing = ⊤ ∧
          (computePlane hI kI lI v a).planeNormal = ⟨0, 0, 0⟩) := by
  constructor
  · intro v a _ _
    apply computePlane_sentinel
    have hG : (computePlane 0 0 0 v a).G = ⟨0, 0, 0⟩ := by
      show add (add (scale _ 0) (scale _ 0)) (scale _ 0) = _
      simp [scale, add]
    rw [hG]
    show Rat.sqrt (0 * 0 + 0 * 0 + 0 * 0) = 0
    norm_num
  · exact computePlane_sentinel

/-- Witness for C2 at the identity vectors and `a = 1`. -/
theorem computePlane_zero_indices_C2_witness :
    (dot cubicVectors.1 (cross cubicVectors.2.1 cubicVectors.2.2) ≠ 0 ∧ (0 : ℚ) < 1) ∧
      ((computePlane 0 0 0 cubicVectors 1).dSpacing = ⊤ ∧
        (computePlane 0 0 0 cubicVectors 1).planeNormal = ⟨0, 0, 0⟩) :=
  ⟨⟨by with_unfolding_all decide, by norm_num⟩,
    computePlane_zero_indices_C2.1 cubicVectors 1 (by with_unfolding_all decide)
      (by norm_num)⟩

/-- Claim C3 (failing input): the source has no degenerate-lattice guard.
With coplanar vectors (`a2 = a1`) the real-space volume is `0`, yet
`computePlane` divides by it and returns normally with the `|G| = 0`
sentinel; no "degenerate lattice" condition is raised anywhere.  (In the JS
source the division by `0` produces non-finite components in `G`; in this
exact model `1/0 = 0`, so `G` collapses to the zero vector — either way the
caller receives an ordinary result record, not a failure.) -/
theorem computePlane_degenerate_unguarded_C3 :
    dot (scale degenerateVectors.1 1)
        (cross (scale degenerateVectors.2.1 1) (scale degenerateVectors.2.2 1)) = 0 ∧
      computePlane 1 0 0 degenerateVectors 1 =
        { planeNormal := ⟨0, 0, 0⟩, dSpacing := ⊤, G := ⟨0, 0, 0⟩ } := by
  with_unfolding_all decide

/-! Lattice generation (`src/data/lattices.js`). -/

/-- JS parameter default `latticeConstant = null` plus the fallback
`const a = latticeConstant || structure.defaultA`: `none` models an omitted
or `null` argument, and a passed `0` is falsy, so both fall back to
`defaultA`. -/
def effA (lc : Option ℚ) (d : ℚ) : ℚ :=
  match lc with
  | none => d
  | some c => if c = 0 then d else c

/-- A structure definition from the catalog (`STRUCTURES`): only the fields
the kernel reads (`id`, `basis`, `vectors`, `defaultA`). -/
structure Structure where
  id : String
  basis : List Vec3
  vectors : Vec3 × Vec3 × Vec3
  defaultA : ℚ
deriving DecidableEq

/-- A generated atom: `{position, isEdge}`. -/
structure Atom where
  position : Vec3
  isEdge : Bool
deriving DecidableEq

/-- A generated bond; the source fields are `start`/`end` (the latter is a
Lean keyword, hence `startPos`/`endPos`). -/
structure Bond where
  startPos : Vec3
  endPos : Vec3
deriving DecidableEq

/-- The dedup tolerance `0.01` of `generateLattice`. -/
def tolQ : ℚ := 1 / 100

/-- The dedup key of `generateLattice`:
`${Math.round(x/tolerance)},${Math.round(y/tolerance)},${Math.round(z/tolerance)}`
(the string encoding is injective on integer triples, so the key is the
triple itself). -/
def quantKey (p : Vec3) : ℤ × ℤ × ℤ :=
  (jsRound (p.x / tolQ), jsRound (p.y / tolQ), jsRound (p.z / tolQ))

/-- The nested `for i / for j / for k` cell enumeration of
`generateLattice`, in source order. -/
def cellIndices (rep : ℕ) : List (ℕ × ℕ × ℕ) :=
  (List.range rep).flatMap fun i =>
    (List.range rep).flatMap fun j =>
      (List.range rep).map fun k => (i, j, k)

/-- The Cartesian position of basis atom `b` in cell `c`:
`frac = b + (i,j,k)` pushed through the lattice vectors times `a`, minus the
centering offset on each coordinate. -/
def latticePos (vectors : Vec3 × Vec3 × Vec3) (a off : ℚ) (c : ℕ × ℕ × ℕ) (b : Vec3) : Vec3 :=
  let fracX := b.x + (c.1 : ℚ)
  let fracY := b.y + (c.2.1 : ℚ)
  let fracZ := b.z + (c.2.2 : ℚ)
  ⟨fracX * vectors.1.x * a + fracY * vectors.2.1.x * a + fracZ * vectors.2.2.x * a - off,
   fracX * vectors.1.y * a + fracY * vectors.2.1.y * a + fracZ * vectors.2.2.y * a - off,
   fracX * vectors.1.z * a + fracY * vectors.2.1.z * a + fracZ * vectors.2.2.z * a - off⟩

/-- The `isEdge` flag: the generating cell index touches the boundary of the
repeat block. -/
def isEdgeCell (rep : ℕ) (c : ℕ × ℕ × ℕ) : Bool :=
  c.1 == 0 || c.2.1 == 0 || c.2.2 == 0 ||
    c.1 == rep - 1 || c.2.1 == rep - 1 || c.2.2 == rep - 1

/-- The loop body of `generateLattice`: walk the (cell, basis-atom) items in
source order, keep a `seen` set of quantized keys, and push an atom exactly
when its key is new. -/
def latticeLoop (vectors : Vec3 × Vec3 × Vec3) (a off : ℚ) (rep : ℕ) :
    List ((ℕ × ℕ × ℕ) × Vec3) → List (ℤ × ℤ × ℤ) → List Atom → List Atom
  | [], _, acc => acc
  | (c, b) :: rest, seen, acc =>
    let p := latticePos vectors a off c b
    let key := quantKey p
    if key ∈ seen then latticeLoop vectors a off rep rest seen acc
    else latticeLoop vectors a off rep rest (key :: seen) (acc ++ [⟨p, isEdgeCell rep c⟩])

/-- The full iteration order of `generateLattice`: all cells, each with all
basis atoms. -/
def latticeItems (s : Structure) (rep : ℕ) : List ((ℕ × ℕ × ℕ) × Vec3) :=
  (cellIndices rep).flatMap fun c => s.basis.map fun b => (c, b)

/-- Source `generateLattice(structure, repeat, latticeConstant)`. -/
def generateLattice (s : Structure) (rep : ℕ) (lc : Option ℚ) : List Atom :=
  let a := effA lc s.defaultA
  let off := ((rep : ℚ) - 1) * a / 2
  latticeLoop s.vectors a off rep (latticeItems s rep) [] []

/-- The `sc` catalog entry (fields the kernel reads). -/
def scStructure : Structure :=
  ⟨"sc", [⟨0, 0, 0⟩], cubicVectors, 334 / 100⟩

/-- The `bcc` catalog entry (fields the kernel reads). -/
def bccStructure : Structure :=
  ⟨"bcc", [⟨0, 0, 0⟩, ⟨1/2, 1/2, 1/2⟩], cubicVectors, 287 / 100⟩

/-- The `fcc` catalog entry (fields the kernel reads). -/
def fccStructure : Structure :=
  ⟨"fcc", [⟨0, 0, 0⟩, ⟨1/2, 1/2, 0⟩, ⟨1/2, 0, 1/2⟩, ⟨0, 1/2, 1/2⟩], cubicVectors, 361 / 100⟩

/-- The `diamond` catalog entry (fields the kernel reads). -/
def diamondStructure : Structure :=
  ⟨"diamond",
    [⟨0, 0, 0⟩, ⟨1/2, 1/2, 0⟩, ⟨1/2, 0, 1/2⟩, ⟨0, 1/2, 1/2⟩,
     ⟨1/4, 1/4, 1/4⟩, ⟨3/4, 3/4, 1/4⟩, ⟨3/4, 1/4, 3/4⟩, ⟨1/4, 3/4, 3/4⟩],
    cubicVectors, 543 / 100⟩

/-- A structure with non-degenerate (identity) vectors whose two distinct
basis atoms quantize to the same 0.01-key (they are 0.001·√3 apart). -/
def collidingBasisStructure : Structure :=
  ⟨"custom", [⟨0, 0, 0⟩, ⟨1/1000, 1/1000, 1/1000⟩], cubicVectors, 1⟩

/-- A structure (identity vectors) whose basis atoms sit, at `a = 991/1000`,
at `0.25` and `0.75` quantization buckets along x and y (fractional offsets
`5/1982` and `15/1982`, i.e. Cartesian `0.0025` and `0.0075`), all at z
offset `5/1982`.  The centering offset `(repeat−1)·a/2` shifts the rounding
grid by `49.55` buckets per repeat step, so the per-axis rounding inputs
`x/0.01 + 1/2` sit at fractional parts `0.65/0.75/0.85` (pairs split: 6
keys per x/y axis, 3 on z) at `repeat = 3` but at `0.10/0.20/0.30/0.40`
(pairs merge: 4 keys per axis) at `repeat = 4`.  Every rounding input is at
least `0.1` buckets (`10⁻³` in x) away from a rounding boundary, so
IEEE-double evaluation of the source reproduces exactly the keys this
exact-rational model computes at this input. -/
def shiftSensitiveStructure : Structure :=
  ⟨"custom",
    [⟨5/1982, 5/1982, 5/1982⟩, ⟨15/1982, 5/1982, 5/1982⟩,
     ⟨5/1982, 15/1982, 5/1982⟩, ⟨15/1982, 15/1982, 5/1982⟩],
    cubicVectors, 1⟩

/-- The quantized key of one (cell, basis-atom) item. -/
def itemKey (vectors : Vec3 × Vec3 × Vec3) (a off : ℚ) (it : (ℕ × ℕ × ℕ) × Vec3) : ℤ × ℤ × ℤ :=
  quantKey (latticePos vectors a off it.1 it.2)

/-- The key of an emitted atom. -/
def atomKey (t : Atom) : ℤ × ℤ × ℤ := quantKey t.position

theorem latticeLoop_length (vectors : Vec3 × Vec3 × Vec3) (a off : ℚ) (rep : ℕ) :
    ∀ (items : List ((ℕ × ℕ × ℕ) × Vec3)) (seen : List (ℤ × ℤ × ℤ)) (acc : List Atom),
      (latticeLoop vectors a off rep items seen acc).length =
        acc.length + ((items.map (itemKey vectors a off)).toFinset \ seen.toFinset).card := by
  intro items
  induction items with
  | nil => intro seen acc; simp [latticeLoop]
  | cons it rest ih =>
    intro seen acc
    obtain ⟨c, b⟩ := it
    show (latticeLoop vectors a off rep ((c, b) :: rest) seen acc).length = _
    rw [latticeLoop]
    set k := quantKey (latticePos vectors a off c b) with hk
    have hmapcons : ((c, b) :: rest).map (itemKey vectors a off) =
        k :: rest.map (itemKey vectors a off) := rfl
    by_cases hmem : k ∈ seen
    · rw [if_pos hmem, ih]
      have : (((c, b) :: rest).map (itemKey vectors a off)).toFinset \ seen.toFinset =
          (rest.map (itemKey vectors a off)).toFinset \ seen.toFinset := by
        rw [hmapcons, List.toFinset_cons,
          Finset.insert_sdiff_of_mem _ (List.mem_toFinset.mpr hmem)]
      rw [this]
    · rw [if_neg hmem, ih]
      have hlen : (acc ++ [(⟨latticePos vectors a off c b, isEdgeCell rep c⟩ : Atom)]).length =
          acc.length + 1 := by simp
      rw [hlen]
      have hknot : k ∉ seen.toFinset := fun hc => hmem (List.mem_toFinset.mp hc)
      rw [hmapcons, List.toFinset_cons, List.toFinset_cons]
      set R := (rest.map (itemKey vectors a off)).toFinset
      set S := seen.toFinset
      have h1 : insert k R \ S = insert k (R \ S) := by
        ext u
        simp only [Finset.mem_sdiff, Finset.mem_insert]
        constructor
        · rintro ⟨hu | hu, hus⟩
          · exact Or.inl hu
          · exact Or.inr ⟨hu, hus⟩
        · rintro (hu | ⟨hu, hus⟩)
          · exact ⟨Or.inl hu, by rw [hu]; exact hknot⟩
          · exact ⟨Or.inr hu, hus⟩
      have h2 : R \ insert k S = (R \ S).erase k := by
        ext u
        simp only [Finset.mem_sdiff, Finset.mem_insert, Finset.mem_erase]
        tauto
      rw [h1, h2]
      by_cases hkRS : k ∈ R \ S
      · rw [Finset.insert_eq_self.mpr hkRS, Finset.card_erase_of_mem hkRS]
        have : 0 < (R \ S).card := Finset.card_pos.mpr ⟨k, hkRS⟩
        omega
      · rw [Finset.card_insert_of_not_mem hkRS, Finset.erase_eq_of_not_mem hkRS]
        omega

theorem latticeLoop_nodup (vectors : Vec3 × Vec3 × Vec3) (a off : ℚ) (rep : ℕ) :
    ∀ (items : List ((ℕ × ℕ × ℕ) × Vec3)) (seen : List (ℤ × ℤ × ℤ)) (acc : List Atom),
      (acc.map atomKey).Nodup →
      (∀ k, k ∈ acc.map atomKey → k ∈ seen) →
      ((latticeLoop vectors a off rep items seen acc).map atomKey).Nodup := by
  intro items
  induction items with
  | nil => intro seen acc hnd _; simpa [latticeLoop] using hnd
  | cons it rest ih =>
    intro seen acc hnd hsub
    obtain ⟨c, b⟩ := it
    rw [latticeLoop]
    set k := quantKey (latticePos vectors a off c b) with hk
    by_cases hmem : k ∈ seen
    · rw [if_pos hmem]; exact ih seen acc hnd hsub
    · rw [if_neg hmem]
      apply ih
      · have : ((acc ++ [(⟨latticePos vectors a off c b, isEdgeCell rep c⟩ : Atom)]).map atomKey)
            = acc.map atomKey ++ [k] := by simp [atomKey]
        rw [this]
        refine List.Nodup.append hnd (List.nodup_singleton k) ?_
        intro u hu hu'
        rw [List.mem_singleton] at hu'
        subst hu'
        exact hmem (hsub _ hu)
      · intro u hu
        have : ((acc ++ [(⟨latticePos vectors a off c b, isEdgeCell rep c⟩ : Atom)]).map atomKey)
            = acc.map atomKey ++ [k] := by simp [atomKey]
        rw [this, List.mem_append, List.mem_singleton] at hu
        rcases hu with hu | hu
        · exact List.mem_cons_of_mem _ (hsub u hu)
        · rw [hu]; exact List.mem_cons_self _ _

/-- Claim C8 (counterexample): a structure with non-degenerate (identity,
determinant 1) vectors but two distinct basis atoms only `0.001` apart
yields a single atom at `repeat = 1` — not `|basis| = 2` — because both
atoms quantize to the same dedup key. -/
theorem generateLattice_repeat1_counterexample_C8 :
    dot collidingBasisStructure.vectors.1
        (cross collidingBasisStructure.vectors.2.1 collidingBasisStructure.vectors.2.2) = 1 ∧
      collidingBasisStructure.basis.length = 2 ∧
      collidingBasisStructure.basis.getD 0 ⟨0, 0, 0⟩ ≠
        collidingBasisStructure.basis.getD 1 ⟨0, 0, 0⟩ ∧
      (generateLattice collidingBasisStructure 1 (some 1)).length = 1 := by
  with_unfolding_all decide

/-- Claim C8 (amended): with `repeat = 1`, `generateLattice` produces
exactly `|basis|` atoms provided the basis atoms quantize to pairwise
distinct 0.01-keys (the counterexample shows the proviso is necessary);
and for every structure and repeat count the produced atoms have pairwise
distinct quantized positions — no duplicates. -/
theorem generateLattice_repeat1_C8 :
    (∀ (s : Structure) (lc : Option ℚ),
        ((latticeItems s 1).map (itemKey s.vectors (effA lc s.defaultA) 0)).Nodup →
        (generateLattice s 1 lc).length = s.basis.length) ∧
    (∀ (s : Structure) (rep : ℕ) (lc : Option ℚ),
        ((generateLattice s rep lc).map atomKey).Nodup) := by
  constructor
  · intro s lc hnd
    have hoff : (((1 : ℕ) : ℚ) - 1) * effA lc s.defaultA / 2 = 0 := by norm_num
    show (latticeLoop s.vectors (effA lc s.defaultA)
        ((((1 : ℕ) : ℚ) - 1) * effA lc s.defaultA / 2) 1 (latticeItems s 1) [] []).length
        = s.basis.length
    rw [hoff, latticeLoop_length]
    have hitems : (latticeItems s 1).length = s.basis.length := by
      simp [latticeItems, cellIndices, List.range_succ]
    rw [List.toFinset_nil, Finset.sdiff_empty, List.toFinset_card_of_nodup hnd,
      List.length_map, hitems, List.length_nil]
    omega
  · intro s rep lc
    exact latticeLoop_nodup _ _ _ _ _ _ _ (by simp) (by simp)

/-- Witness for the amended C8 at the bcc structure with default constant. -/
theorem generateLattice_repeat1_C8_witness :
    ((latticeItems bccStructure 1).map
        (itemKey bccStructure.vectors (effA none bccStructure.defaultA) 0)).Nodup ∧
      (generateLattice bccStructure 1 none).length = bccStructure.basis.length :=
  ⟨by with_unfolding_all decide,
    generateLattice_repeat1_C8.1 bccStructure none (by with_unfolding_all decide)⟩

/-- Claim C9 (counterexample): the deduplicated atom count is not monotone
in the repeat count.  For `shiftSensitiveStructure` at lattice constant
`a = 991/1000`, `repeat = 3` yields 108 atoms but `repeat = 4` yields only
64: the centering offset `(repeat−1)·a/2` moves the quantization grid by a
non-integer number of 0.01-buckets, so basis-atom keys that are distinct at
`repeat = 3` merge pairwise at `repeat = 4`.  All rounding inputs at this
input are at least 0.1 buckets from a `Math.round` boundary (see
`shiftSensitiveStructure`), so the counts are those of the floating-point
source as well, not an artifact of the exact-rational model. -/
theorem generateLattice_monotone_counterexample_C9 :
    (3 : ℕ) ≤ 4 ∧
      (generateLattice shiftSensitiveStructure 3 (some (991/1000))).length = 108 ∧
      (generateLattice shiftSensitiveStructure 4 (some (991/1000))).length = 64 := by
  refine ⟨by norm_num, ?_, ?_⟩
  · set_option maxRecDepth 1000000 in with_unfolding_all decide
  · set_option maxRecDepth 1000000 in with_unfolding_all decide

theorem list_toFinset_map {α β : Type} [DecidableEq α] [DecidableEq β]
    (l : List α) (f : α → β) : (l.map f).toFinset = l.toFinset.image f := by
  ext u
  simp

theorem jsRound_sub_int (q : ℚ) (n : ℤ) : jsRound (q - n) = jsRound q - n := by
  unfold jsRound
  rw [show q - n + 1/2 = q + 1/2 - n by ring, Int.floor_sub_int]

theorem quantKey_shift (p : Vec3) (off : ℚ) (m : ℤ) (hm : (m : ℚ) = 100 * off) :
    quantKey ⟨p.x - off, p.y - off, p.z - off⟩ =
      ((quantKey p).1 - m, (quantKey p).2.1 - m, (quantKey p).2.2 - m) := by
  have h : ∀ q : ℚ, jsRound ((q - off) / tolQ) = jsRound (q / tolQ) - m := by
    intro q
    have he : (q - off) / tolQ = q / tolQ - (m : ℚ) := by
      rw [hm, tolQ]; ring
    rw [he, jsRound_sub_int]
  show (jsRound _, jsRound _, jsRound _) = _
  rw [h, h, h]
  rfl

theorem latticePos_off (v : Vec3 × Vec3 × Vec3) (a off : ℚ) (c : ℕ × ℕ × ℕ) (b : Vec3) :
    latticePos v a off c b =
      ⟨(latticePos v a 0 c b).x - off, (latticePos v a 0 c b).y - off,
        (latticePos v a 0 c b).z - off⟩ := by
  simp only [latticePos]
  refine Vec3.mk.injEq _ _ _ _ _ _ |>.mpr ⟨?_, ?_, ?_⟩ <;> ring

/-- With the offset an integer number of buckets, the offset keys are a
translate of the zero-offset keys. -/
theorem itemKey_shift (v : Vec3 × Vec3 × Vec3) (a off : ℚ) (m : ℤ)
    (hm : (m : ℚ) = 100 * off) (it : (ℕ × ℕ × ℕ) × Vec3) :
    itemKey v a off it =
      ((itemKey v a 0 it).1 - m, (itemKey v a 0 it).2.1 - m, (itemKey v a 0 it).2.2 - m) := by
  unfold itemKey
  rw [latticePos_off, quantKey_shift _ _ _ hm]

theorem generateLattice_length (s : Structure) (rep : ℕ) (lc : Option ℚ) :
    (generateLattice s rep lc).length =
      ((latticeItems s rep).map
        (itemKey s.vectors (effA lc s.defaultA)
          (((rep : ℚ) - 1) * effA lc s.defaultA / 2))).toFinset.card := by
  show (latticeLoop _ _ _ _ _ [] []).length = _
  rw [latticeLoop_length]
  simp

theorem mem_cellIndices (rep : ℕ) (c : ℕ × ℕ × ℕ) :
    c ∈ cellIndices rep ↔ c.1 < rep ∧ c.2.1 < rep ∧ c.2.2 < rep := by
  obtain ⟨i, j, k⟩ := c
  simp only [cellIndices, List.mem_flatMap, List.mem_map, List.mem_range, Prod.mk.injEq]
  constructor
  · rintro ⟨i', hi', j', hj', k', hk', rfl, rfl, rfl⟩
    exact ⟨hi', hj', hk'⟩
  · rintro ⟨hi, hj, hk⟩
    exact ⟨i, hi, j, hj, k, hk, rfl, rfl, rfl⟩

theorem mem_latticeItems (s : Structure) (rep : ℕ) (it : (ℕ × ℕ × ℕ) × Vec3) :
    it ∈ latticeItems s rep ↔ it.1 ∈ cellIndices rep ∧ it.2 ∈ s.basis := by
  obtain ⟨c, b⟩ := it
  simp only [latticeItems, List.mem_flatMap, List.mem_map, Prod.mk.injEq]
  constructor
  · rintro ⟨c', hc', b', hb', rfl, rfl⟩
    exact ⟨hc', hb'⟩
  · rintro ⟨hc, hb⟩
    exact ⟨c, hc, b, hb, rfl, rfl⟩

/-- Claim C9 (amended): the deduplicated atom count is monotone
non-decreasing in the repeat count provided `50·a` is an integer, i.e. the
half-lattice-constant is a whole number of 0.01 quantization buckets (the
counterexample shows the proviso is necessary; all shifts of the centering
offset are then by whole buckets, so the collision pattern of shared cells
is unchanged as `repeat` grows). -/
theorem generateLattice_monotone_C9 (s : Structure) (lc : Option ℚ) (m : ℤ)
    (hm : (m : ℚ) = 50 * effA lc s.defaultA) (r1 r2 : ℕ) (_hr1 : 1 ≤ r1) (hr : r1 ≤ r2) :
    (generateLattice s r1 lc).length ≤ (generateLattice s r2 lc).length := by
  set a := effA lc s.defaultA with ha
  have hcard : ∀ r : ℕ,
      (generateLattice s r lc).length =
        ((latticeItems s r).map (itemKey s.vectors a 0)).toFinset.card := by
    intro r
    rw [generateLattice_length]
    have hoffm : ((m * ((r : ℤ) - 1) : ℤ) : ℚ) = 100 * (((r : ℚ) - 1) * a / 2) := by
      push_cast
      rw [hm]
      ring
    have hfun : (latticeItems s r).map (itemKey s.vectors a (((r : ℚ) - 1) * a / 2)) =
        (latticeItems s r).map ((fun k : ℤ × ℤ × ℤ =>
          (k.1 - m * ((r : ℤ) - 1), k.2.1 - m * ((r : ℤ) - 1), k.2.2 - m * ((r : ℤ) - 1))) ∘
          itemKey s.vectors a 0) := by
      apply List.map_congr_left
      intro it _
      exact itemKey_shift s.vectors a _ _ hoffm it
    rw [hfun, ← List.map_map, list_toFinset_map]
    apply Finset.card_image_of_injective
    intro u w huw
    obtain ⟨h1, h2⟩ := Prod.mk.injEq _ _ _ _ |>.mp huw
    obtain ⟨h2, h3⟩ := Prod.mk.injEq _ _ _ _ |>.mp h2
    obtain ⟨u1, u2, u3⟩ := u
    obtain ⟨w1, w2, w3⟩ := w
    simp only at h1 h2 h3
    refine Prod.mk.injEq _ _ _ _ |>.mpr ⟨by omega, Prod.mk.injEq _ _ _ _ |>.mpr ⟨by omega, by omega⟩⟩
  rw [hcard r1, hcard r2]
  apply Finset.card_le_card
  intro k hk
  rw [List.mem_toFinset, List.mem_map] at hk ⊢
  obtain ⟨it, hit, hkey⟩ := hk
  refine ⟨it, ?_, hkey⟩
  rw [mem_latticeItems] at hit ⊢
  rw [mem_cellIndices] at hit ⊢
  exact ⟨⟨lt_of_lt_of_le hit.1.1 hr, lt_of_lt_of_le hit.1.2.1 hr,
    lt_of_lt_of_le hit.1.2.2 hr⟩, hit.2⟩

/-- Witness for the amended C9: simple cubic at `a = 1`, repeats 2 ≤ 3. -/
theorem generateLattice_monotone_C9_witness :
    ((50 : ℤ) : ℚ) = 50 * effA (some 1) scStructure.defaultA ∧ (1 : ℕ) ≤ 2 ∧ (2 : ℕ) ≤ 3 ∧
      (generateLattice scStructure 2 (some 1)).length ≤
        (generateLattice scStructure 3 (some 1)).length :=
  ⟨by norm_num [effA], by norm_num, by norm_num,
    generateLattice_monotone_C9 scStructure (some 1) 50 (by norm_num [effA]) 2 3
      (by norm_num) (by norm_num)⟩

/-! Bond generation (`generateBonds`). -/

/-- Default atom for list indexing; the source loops only over in-range
indices, so it is never actually read. -/
def defaultAtom : Atom := ⟨⟨0, 0, 0⟩, false⟩

/-- Squared Euclidean distance `dx² + dy² + dz²` between two positions
(the source computes `dist = Math.sqrt` of this). -/
def distSq (p q : Vec3) : ℚ :=
  (p.x - q.x) * (p.x - q.x) + (p.y - q.y) * (p.y - q.y) + (p.z - q.z) * (p.z - q.z)

/-- Square of the source's `maxBondLength` switch:
`sc: a·1.05, bcc: a·√3/2·1.05, fcc: a·√2/2·1.05, diamond: a·√3/4·1.05,
hcp: a·1.05, default: a·1.05`.  The squares are exactly rational:
`a²·(441/400)·ρ` with `ρ = 1, 3/4, 1/2, 3/16, 1, 1` respectively. -/
def maxBondLengthSq (id : String) (a : ℚ) : ℚ :=
  if id = "sc" then a * a * (441 / 400)
  else if id = "bcc" then a * a * (3 / 4) * (441 / 400)
  else if id = "fcc" then a * a * (1 / 2) * (441 / 400)
  else if id = "diamond" then a * a * (3 / 16) * (441 / 400)
  else if id = "hcp" then a * a * (441 / 400)
  else a * a * (441 / 400)

/-- The source's bond test `dist <= maxBondLength && dist > 0.01` in squared
form: since `dist = √distSq ≥ 0`, `dist ≤ a·μ·√ρ` holds iff `0 ≤ a` and
`distSq ≤ a²μ²ρ = maxBondLengthSq`, and `dist > 0.01` iff
`distSq > 0.0001`. -/
def bondOK (s : Structure) (a : ℚ) (p q : Vec3) : Prop :=
  (0 ≤ a ∧ distSq p q ≤ maxBondLengthSq s.id a) ∧ 1 / 10000 < distSq p q

instance (s : Structure) (a : ℚ) (p q : Vec3) : Decidable (bondOK s a p q) := by
  unfold bondOK
  exact inferInstance

/-- Source `generateBonds(atoms, structure, latticeConstant)`: all pairs
`i < j` in ascending order, a bond exactly when the distance test passes. -/
def generateBonds (atoms : List Atom) (s : Structure) (lc : Option ℚ) : List Bond :=
  let a := effA lc s.defaultA
  (List.range atoms.length).flatMap fun i =>
    (List.range atoms.length).flatMap fun j =>
      if i < j then
        if bondOK s a (atoms.getD i defaultAtom).position (atoms.getD j defaultAtom).position
        then [⟨(atoms.getD i defaultAtom).position, (atoms.getD j defaultAtom).position⟩]
        else []
      else []

theorem distSq_nonneg (p q : Vec3) : 0 ≤ distSq p q := by
  unfold distSq
  have h1 := mul_self_nonneg (p.x - q.x)
  have h2 := mul_self_nonneg (p.y - q.y)
  have h3 := mul_self_nonneg (p.z - q.z)
  linarith

theorem effA_some_ne (c d : ℚ) (hc : c ≠ 0) : effA (some c) d = c := by
  simp [effA, hc]

/-- Membership in `generateBonds`: exactly the pairs `i < j` whose squared
distance passes the bond test. -/
theorem mem_generateBonds (atoms : List Atom) (s : Structure) (lc : Option ℚ) (b : Bond) :
    b ∈ generateBonds atoms s lc ↔
      ∃ i j, i < j ∧ j < atoms.length ∧
        b = ⟨(atoms.getD i defaultAtom).position, (atoms.getD j defaultAtom).position⟩ ∧
        bondOK s (effA lc s.defaultA) (atoms.getD i defaultAtom).position
          (atoms.getD j defaultAtom).position := by
  simp only [generateBonds, List.mem_flatMap, List.mem_range]
  constructor
  · rintro ⟨i, hi, j, hj, hb⟩
    by_cases hij : i < j
    · rw [if_pos hij] at hb
      by_cases hc : bondOK s (effA lc s.defaultA) (atoms.getD i defaultAtom).position
          (atoms.getD j defaultAtom).position
      · rw [if_pos hc, List.mem_singleton] at hb
        exact ⟨i, j, hij, hj, hb, hc⟩
      · rw [if_neg hc] at hb
        exact absurd hb (List.not_mem_nil b)
    · rw [if_neg hij] at hb
      exact absurd hb (List.not_mem_nil b)
  · rintro ⟨i, j, hij, hj, rfl, hc⟩
    refine ⟨i, lt_trans hij hj, j, hj, ?_⟩
    rw [if_pos hij, if_pos hc]
    exact List.mem_singleton_self _

/-- Bridge between the squared rational bond test and the real-valued
distance window `0.01 < dist ≤ cutoff` of the spec: `cR` is the real
cutoff, `cq` its square. -/
theorem sqrt_window (a dq cq : ℚ) (cR : ℝ) (ha : 0 < a) (hc : 0 ≤ cR)
    (hcq : cR ^ 2 = (cq : ℝ)) :
    (((0 ≤ a ∧ dq ≤ cq) ∧ 1 / 10000 < dq) ↔
      ((1 / 100 : ℝ) < Real.sqrt (dq : ℝ) ∧ Real.sqrt (dq : ℝ) ≤ cR)) := by
  constructor
  · rintro ⟨⟨-, hle⟩, hlt⟩
    constructor
    · rw [Real.lt_sqrt (by norm_num : (0 : ℝ) ≤ 1 / 100)]
      calc (1 / 100 : ℝ) ^ 2 = ((1 / 10000 : ℚ) : ℝ) := by norm_num
        _ < (dq : ℝ) := by exact_mod_cast hlt
    · rw [Real.sqrt_le_iff]
      refine ⟨hc, ?_⟩
      rw [hcq]
      exact_mod_cast hle
  · rintro ⟨hlt, hle⟩
    have h1 : (1 / 10000 : ℚ) < dq := by
      have h := (Real.lt_sqrt (by norm_num : (0 : ℝ) ≤ 1 / 100)).mp hlt
      have h' : ((1 / 10000 : ℚ) : ℝ) < (dq : ℝ) := by
        calc ((1 / 10000 : ℚ) : ℝ) = (1 / 100 : ℝ) ^ 2 := by norm_num
          _ < (dq : ℝ) := h
      exact_mod_cast h'
    have h2 : dq ≤ cq := by
      have h := (Real.sqrt_le_iff.mp hle).2
      rw [hcq] at h
      exact_mod_cast h
    exact ⟨⟨le_of_lt ha, h2⟩, h1⟩

/-- Claim C4: for every atom list and `a > 0`, `generateBonds` on the fcc
structure returns a bond between atoms `i` and `j` (`i < j`) iff their
Euclidean distance `d` satisfies `0.01 < d ≤ a·√2/2·1.05`; consequently no
bond connects an atom to itself or to a coincident duplicate within `0.01`
of it. -/
theorem generateBonds_fcc_C4 (atoms : List Atom) (a : ℚ) (ha : 0 < a) :
    (∀ b : Bond,
        b ∈ generateBonds atoms fccStructure (some a) ↔
        ∃ i j, i < j ∧ j < atoms.length ∧
          b = ⟨(atoms.getD i defaultAtom).position, (atoms.getD j defaultAtom).position⟩ ∧
          (1 / 100 : ℝ) < Real.sqrt ((distSq (atoms.getD i defaultAtom).position
            (atoms.getD j defaultAtom).position : ℚ) : ℝ) ∧
          Real.sqrt ((distSq (atoms.getD i defaultAtom).position
            (atoms.getD j defaultAtom).position : ℚ) : ℝ) ≤
            (a : ℝ) * Real.sqrt 2 / 2 * 1.05) ∧
    (∀ b ∈ generateBonds atoms fccStructure (some a),
        (1 / 100 : ℝ) < Real.sqrt ((distSq b.startPos b.endPos : ℚ) : ℝ) ∧
          b.startPos ≠ b.endPos) := by
  have haQ : effA (some a) fccStructure.defaultA = a := effA_some_ne a _ (ne_of_gt ha)
  have hmax : maxBondLengthSq fccStructure.id a = a * a * (1 / 2) * (441 / 400) := by
    with_unfolding_all rfl
  have hcR : (0 : ℝ) ≤ (a : ℝ) * Real.sqrt 2 / 2 * 1.05 := by
    have h2 : (0 : ℝ) ≤ Real.sqrt 2 := Real.sqrt_nonneg 2
    have haR : (0 : ℝ) ≤ (a : ℝ) := by exact_mod_cast le_of_lt ha
    positivity
  have hcq : ((a : ℝ) * Real.sqrt 2 / 2 * 1.05) ^ 2 =
      ((maxBondLengthSq fccStructure.id a : ℚ) : ℝ) := by
    have h2 : Real.sqrt 2 * Real.sqrt 2 = 2 := Real.mul_self_sqrt (by norm_num)
    rw [hmax]
    push_cast
    calc ((a : ℝ) * Real.sqrt 2 / 2 * 1.05) ^ 2
        = (a : ℝ) * (a : ℝ) * (Real.sqrt 2 * Real.sqrt 2) * (1.05 * 1.05) / 4 := by ring
      _ = (a : ℝ) * (a : ℝ) * 2 * (1.05 * 1.05) / 4 := by rw [h2]
      _ = (a : ℝ) * (a : ℝ) * 2 * (441 / 400) / 4 := by norm_num
      _ = (a : ℝ) * (a : ℝ) * (1 / 2) * (441 / 400) := by ring
  have hwin : ∀ p q : Vec3,
      bondOK fccStructure a p q ↔
        ((1 / 100 : ℝ) < Real.sqrt ((distSq p q : ℚ) : ℝ) ∧
          Real.sqrt ((distSq p q : ℚ) : ℝ) ≤ (a : ℝ) * Real.sqrt 2 / 2 * 1.05) := by
    intro p q
    unfold bondOK
    exact sqrt_window a (distSq p q) (maxBondLengthSq fccStructure.id a) _ ha hcR hcq
  constructor
  · intro b
    rw [mem_generateBonds, haQ]
    constructor
    · rintro ⟨i, j, hij, hj, rfl, hc⟩
      exact ⟨i, j, hij, hj, rfl, (hwin _ _).mp hc⟩
    · rintro ⟨i, j, hij, hj, rfl, hc⟩
      exact ⟨i, j, hij, hj, rfl, (hwin _ _).mpr hc⟩
  · intro b hb
    rw [mem_generateBonds, haQ] at hb
    obtain ⟨i, j, hij, hj, rfl, hc⟩ := hb
    have hw := (hwin _ _).mp hc
    refine ⟨hw.1, ?_⟩
    intro he
    have h0 : distSq (atoms.getD i defaultAtom).position (atoms.getD j defaultAtom).position
        = 0 := by
      show distSq (Bond.mk (atoms.getD i defaultAtom).position
        (atoms.getD j defaultAtom).position).startPos _ = 0
      rw [show (Bond.mk (atoms.getD i defaultAtom).position
        (atoms.getD j defaultAtom).position).startPos =
          (atoms.getD j defaultAtom).position from congrArg Bond.startPos
            (by rw [Bond.mk.injEq]; exact ⟨he, rfl⟩)]
      unfold distSq
      ring
    have := hw.1
    rw [h0] at this
    simp only [Rat.cast_zero, Real.sqrt_zero] at this
    norm_num at this

/-- Witness for C4 at `a = 2` and a two-atom list at distance 1. -/
theorem generateBonds_fcc_C4_witness :
    (0 : ℚ) < 2 ∧
      (∀ b : Bond,
        b ∈ generateBonds [⟨⟨0, 0, 0⟩, false⟩, ⟨⟨1, 0, 0⟩, false⟩] fccStructure (some 2) ↔
        ∃ i j, i < j ∧ j < (2 : ℕ) ∧
          b = ⟨(([⟨⟨0, 0, 0⟩, false⟩, ⟨⟨1, 0, 0⟩, false⟩] : List Atom).getD i
              defaultAtom).position,
            (([⟨⟨0, 0, 0⟩, false⟩, ⟨⟨1, 0, 0⟩, false⟩] : List Atom).getD j
              defaultAtom).position⟩ ∧
          (1 / 100 : ℝ) < Real.sqrt ((distSq
            (([⟨⟨0, 0, 0⟩, false⟩, ⟨⟨1, 0, 0⟩, false⟩] : List Atom).getD i
              defaultAtom).position
            (([⟨⟨0, 0, 0⟩, false⟩, ⟨⟨1, 0, 0⟩, false⟩] : List Atom).getD j
              defaultAtom).position : ℚ) : ℝ) ∧
          Real.sqrt ((distSq
            (([⟨⟨0, 0, 0⟩, false⟩, ⟨⟨1, 0, 0⟩, false⟩] : List Atom).getD i
              defaultAtom).position
            (([⟨⟨0, 0, 0⟩, false⟩, ⟨⟨1, 0, 0⟩, false⟩] : List Atom).getD j
              defaultAtom).position : ℚ) : ℝ) ≤ ((2 : ℚ) : ℝ) * Real.sqrt 2 / 2 * 1.05) :=
  ⟨by norm_num, (generateBonds_fcc_C4 [⟨⟨0, 0, 0⟩, false⟩, ⟨⟨1, 0, 0⟩, false⟩] 2
    (by norm_num)).1⟩

/-- A structure with an unrecognized id for the `switch` default branch. -/
def unknownStructure : Structure := ⟨"xyz", [⟨0, 0, 0⟩], cubicVectors, 1⟩

/-- Two atoms at distance `1.02` (`distSq = 2601/2500`). -/
def pairAtoms : List Atom := [⟨⟨0, 0, 0⟩, false⟩, ⟨⟨51/50, 0, 0⟩, false⟩]

/-- Claim C5 (counterexample): for the unrecognized id `"xyz"` at `a = 1`,
the claim says the cutoff is the lattice constant itself (`= 1`), so the
two atoms at distance `1.02 > 1` must not bond; the code bonds them,
because the actual fallback cutoff is `a * 1.05`. -/
theorem generateBonds_unknown_counterexample_C5 :
    generateBonds pairAtoms unknownStructure (some 1) =
        [⟨⟨0, 0, 0⟩, ⟨51/50, 0, 0⟩⟩] ∧
      (1 : ℚ) < distSq ⟨0, 0, 0⟩ ⟨51/50, 0, 0⟩ ∧
      (1 : ℝ) < Real.sqrt ((distSq ⟨0, 0, 0⟩ ⟨51/50, 0, 0⟩ : ℚ) : ℝ) := by
  have h1 : generateBonds pairAtoms unknownStructure (some 1) =
      [⟨⟨0, 0, 0⟩, ⟨51/50, 0, 0⟩⟩] := by
    set_option maxRecDepth 100000 in with_unfolding_all decide
  have hd : (distSq ⟨0, 0, 0⟩ ⟨51/50, 0, 0⟩ : ℚ) = 2601/2500 := by
    norm_num [distSq]
  refine ⟨h1, by rw [hd]; norm_num, ?_⟩
  rw [hd, Real.lt_sqrt (by norm_num : (0 : ℝ) ≤ 1)]
  push_cast
  norm_num

/-- Claim C5 (amended): for every structure whose id is not one of the
recognized ids, `generateBonds` uses the lattice constant inflated by the
same 5% tolerance — `a * 1.05`, not `a` itself — as the bond cutoff. -/
theorem generateBonds_unknown_cutoff_C5 (s : Structure)
    (hid : s.id ∉ (["sc", "bcc", "fcc", "diamond", "hcp"] : List String))
    (atoms : List Atom) (a : ℚ) (ha : 0 < a) (b : Bond) :
    b ∈ generateBonds atoms s (some a) ↔
      ∃ i j, i < j ∧ j < atoms.length ∧
        b = ⟨(atoms.getD i defaultAtom).position, (atoms.getD j defaultAtom).position⟩ ∧
        (1 / 100 : ℝ) < Real.sqrt ((distSq (atoms.getD i defaultAtom).position
          (atoms.getD j defaultAtom).position : ℚ) : ℝ) ∧
        Real.sqrt ((distSq (atoms.getD i defaultAtom).position
          (atoms.getD j defaultAtom).position : ℚ) : ℝ) ≤ (a : ℝ) * 1.05 := by
  simp only [List.mem_cons, List.not_mem_nil, or_false, not_or] at hid
  obtain ⟨h1, h2, h3, h4, h5⟩ := hid
  have haQ : effA (some a) s.defaultA = a := effA_some_ne a _ (ne_of_gt ha)
  have hmax : maxBondLengthSq s.id a = a * a * (441 / 400) := by
    unfold maxBondLengthSq
    rw [if_neg h1, if_neg h2, if_neg h3, if_neg h4, if_neg h5]
  have hcR : (0 : ℝ) ≤ (a : ℝ) * 1.05 := by
    have haR : (0 : ℝ) ≤ (a : ℝ) := by exact_mod_cast le_of_lt ha
    positivity
  have hcq : ((a : ℝ) * 1.05) ^ 2 = ((maxBondLengthSq s.id a : ℚ) : ℝ) := by
    rw [hmax]
    push_cast
    calc ((a : ℝ) * 1.05) ^ 2 = (a : ℝ) * (a : ℝ) * (1.05 * 1.05) := by ring
      _ = (a : ℝ) * (a : ℝ) * (441 / 400) := by norm_num
  have hwin : ∀ p q : Vec3,
      bondOK s a p q ↔
        ((1 / 100 : ℝ) < Real.sqrt ((distSq p q : ℚ) : ℝ) ∧
          Real.sqrt ((distSq p q : ℚ) : ℝ) ≤ (a : ℝ) * 1.05) := by
    intro p q
    unfold bondOK
    exact sqrt_window a (distSq p q) (maxBondLengthSq s.id a) _ ha hcR hcq
  rw [mem_generateBonds, haQ]
  constructor
  · rintro ⟨i, j, hij, hj, rfl, hc⟩
    exact ⟨i, j, hij, hj, rfl, (hwin _ _).mp hc⟩
  · rintro ⟨i, j, hij, hj, rfl, hc⟩
    exact ⟨i, j, hij, hj, rfl, (hwin _ _).mpr hc⟩

/-- Witness for the amended C5 at `"xyz"`, `a = 1`, the 1.02-distance pair,
with the bond itself as the witness member. -/
theorem generateBonds_unknown_cutoff_C5_witness :
    (("xyz" : String) ∉ (["sc", "bcc", "fcc", "diamond", "hcp"] : List String) ∧
        (0 : ℚ) < 1) ∧
      ((⟨⟨0, 0, 0⟩, ⟨51/50, 0, 0⟩⟩ : Bond) ∈ generateBonds pairAtoms unknownStructure (some 1) ↔
        ∃ i j, i < j ∧ j < pairAtoms.length ∧
          (⟨⟨0, 0, 0⟩, ⟨51/50, 0, 0⟩⟩ : Bond) =
            ⟨(pairAtoms.getD i defaultAtom).position, (pairAtoms.getD j defaultAtom).position⟩ ∧
          (1 / 100 : ℝ) < Real.sqrt ((distSq (pairAtoms.getD i defaultAtom).position
            (pairAtoms.getD j defaultAtom).position : ℚ) : ℝ) ∧
          Real.sqrt ((distSq (pairAtoms.getD i defaultAtom).position
            (pairAtoms.getD j defaultAtom).position : ℚ) : ℝ) ≤ ((1 : ℚ) : ℝ) * 1.05) :=
  ⟨⟨by decide, by norm_num⟩,
    generateBonds_unknown_cutoff_C5 unknownStructure (by decide) pairAtoms 1 (by norm_num) _⟩

/-! Unit-cell wireframe (`generateUnitCell`). -/

/-- Source `generateUnitCell(structure, latticeConstant)`: the 8 corners of
the parallelepiped spanned by the scaled vectors, and the fixed 12 edges. -/
def generateUnitCell (s : Structure) (lc : Option ℚ) : List Vec3 × List (ℕ × ℕ) :=
  let a := effA lc s.defaultA
  let v0 := scale s.vectors.1 a
  let v1 := scale s.vectors.2.1 a
  let v2 := scale s.vectors.2.2 a
  ([⟨0, 0, 0⟩, v0, v1, v2,
    ⟨v0.x + v1.x, v0.y + v1.y, v0.z + v1.z⟩,
    ⟨v0.x + v2.x, v0.y + v2.y, v0.z + v2.z⟩,
    ⟨v1.x + v2.x, v1.y + v2.y, v1.z + v2.z⟩,
    ⟨v0.x + v1.x + v2.x, v0.y + v1.y + v2.y, v0.z + v1.z + v2.z⟩],
   [(0, 1), (0, 2), (0, 3), (1, 4), (1, 5), (2, 4), (2, 6), (3, 5), (3, 6),
    (4, 7), (5, 7), (6, 7)])

/-- Claim C10: for each of `generateLattice`, `generateBonds` and
`generateUnitCell`, an omitted/`null` (here `none`) or `0` lattice-constant
argument behaves exactly as passing `structure.defaultA`, and any nonzero
constant — even a negative one — is used as passed, never rejected. -/
theorem latticeConstant_fallback_C10 :
    (∀ (s : Structure) (rep : ℕ),
        generateLattice s rep none = generateLattice s rep (some s.defaultA) ∧
        generateLattice s rep (some 0) = generateLattice s rep (some s.defaultA)) ∧
    (∀ (atoms : List Atom) (s : Structure),
        generateBonds atoms s none = generateBonds atoms s (some s.defaultA) ∧
        generateBonds atoms s (some 0) = generateBonds atoms s (some s.defaultA)) ∧
    (∀ s : Structure,
        generateUnitCell s none = generateUnitCell s (some s.defaultA) ∧
        generateUnitCell s (some 0) = generateUnitCell s (some s.defaultA)) ∧
    (∀ c d : ℚ, c ≠ 0 → effA (some c) d = c) := by
  have heff : ∀ d : ℚ, effA none d = effA (some d) d := by
    intro d
    by_cases hd : d = 0 <;> simp [effA, hd]
  have heff0 : ∀ d : ℚ, effA (some 0) d = effA (some d) d := by
    intro d
    by_cases hd : d = 0 <;> simp [effA, hd]
  refine ⟨?_, ?_, ?_, ?_⟩
  · intro s rep
    constructor
    · unfold generateLattice; rw [heff]
    · unfold generateLattice; rw [heff0]
  · intro atoms s
    constructor
    · unfold generateBonds; rw [heff]
    · unfold generateBonds; rw [heff0]
  · intro s
    constructor
    · unfold generateUnitCell; rw [heff]
    · unfold generateUnitCell; rw [heff0]
  · intro c d hc
    exact effA_some_ne c d hc

/-- Witness for C10: the nonzero-constant clause at `c = -2` (a negative
constant is used as passed), plus the three fallback equations at `sc`. -/
theorem latticeConstant_fallback_C10_witness :
    ((-2 : ℚ) ≠ 0 ∧ effA (some (-2)) scStructure.defaultA = -2) ∧
      generateLattice scStructure 2 none = generateLattice scStructure 2 (some (334/100)) ∧
      generateUnitCell scStructure none = generateUnitCell scStructure (some (334/100)) :=
  ⟨⟨by norm_num, latticeConstant_fallback_C10.2.2.2 (-2) scStructure.defaultA (by norm_num)⟩,
    (latticeConstant_fallback_C10.1 scStructure 2).1,
    (latticeConstant_fallback_C10.2.2.1 scStructure).1⟩

/-! Plane clipping (`clipPlaneToBox` and helpers). -/

/-- Source `intersectEdgePlane(a, b, normal, d)`: crossing parameter
`t = da/(da−db)`.  The call sites only reach it with one endpoint inside and
one outside, so `da ≠ db` there; at `da = db` the model's `q/0 = 0`
convention yields `t = 0` where JS would produce `NaN`. -/
def intersectEdgePlane (a b : Vec3) (normal : Vec3) (d : ℚ) : Vec3 :=
  let da := dot a normal - d
  let db := dot b normal - d
  let t := da / (da - db)
  ⟨a.x + t * (b.x - a.x), a.y + t * (b.y - a.y), a.z + t * (b.z - a.z)⟩

/-- Source `clipPolygonByPlane(vertices, normal, d)`: one Sutherland–
Hodgman step; a vertex is inside when its signed distance is `≤ d + 0.001`. -/
def clipPolygonByPlane (vertices : List Vec3) (normal : Vec3) (d : ℚ) : List Vec3 :=
  if vertices.length = 0 then []
  else
    (List.range vertices.length).flatMap fun i =>
      if dot (vertices.getD i ⟨0, 0, 0⟩) normal ≤ d + 1/1000 then
        (vertices.getD i ⟨0, 0, 0⟩) ::
          (if dot (vertices.getD ((i + 1) % vertices.length) ⟨0, 0, 0⟩) normal ≤ d + 1/1000
           then []
           else [intersectEdgePlane (vertices.getD i ⟨0, 0, 0⟩)
             (vertices.getD ((i + 1) % vertices.length) ⟨0, 0, 0⟩) normal d])
      else if dot (vertices.getD ((i + 1) % vertices.length) ⟨0, 0, 0⟩) normal ≤ d + 1/1000
        then [intersectEdgePlane (vertices.getD i ⟨0, 0, 0⟩)
          (vertices.getD ((i + 1) % vertices.length) ⟨0, 0, 0⟩) normal d]
        else []

/-- The tangent-vector selection of `clipPlaneToBox`: pick the world X axis
unless `|normal.x| ≥ 0.9`, else Y; second tangent is `normal × tangent1`. -/
def planeTangents (planeNormal : Vec3) : Vec3 × Vec3 :=
  let tangent1 :=
    if |planeNormal.x| < 9/10 then normalize (cross planeNormal ⟨1, 0, 0⟩)
    else normalize (cross planeNormal ⟨0, 1, 0⟩)
  (tangent1, normalize (cross planeNormal tangent1))

/-- The large initial quad of `clipPlaneToBox`: side `3 × bounds`, centered
at `normal · offset`. -/
def initialQuad (planeNormal : Vec3) (offset bounds : ℚ) : List Vec3 :=
  let t := planeTangents planeNormal
  let size := bounds * 3
  let center := scale planeNormal offset
  [add (add center (scale t.1 (-size))) (scale t.2 (-size)),
   add (add center (scale t.1 size)) (scale t.2 (-size)),
   add (add center (scale t.1 size)) (scale t.2 size),
   add (add center (scale t.1 (-size))) (scale t.2 size)]

/-- The 6 axis-aligned half-space constraints of the box, in source order. -/
def boxClipPlanes (bounds : ℚ) : List (Vec3 × ℚ) :=
  [(⟨1, 0, 0⟩, bounds), (⟨-1, 0, 0⟩, bounds), (⟨0, 1, 0⟩, bounds),
   (⟨0, -1, 0⟩, bounds), (⟨0, 0, 1⟩, bounds), (⟨0, 0, -1⟩, bounds)]

/-- Result of `clipPlaneToBox`: `{vertices, edgeLoop}`. -/
structure ClipResult where
  vertices : List Vec3
  edgeLoop : List Vec3
deriving DecidableEq

/-- The `for (const clip of clipPlanes)` loop with its early return:
`none` models the `return {vertices: [], edgeLoop: []}` taken as soon as
fewer than 3 vertices remain. -/
def clipLoop : List (Vec3 × ℚ) → List Vec3 → Option (List Vec3)
  | [], poly => some poly
  | cp :: rest, poly =>
    if (clipPolygonByPlane poly cp.1 cp.2).length < 3 then none
    else clipLoop rest (clipPolygonByPlane poly cp.1 cp.2)

/-- Source `clipPlaneToBox(planeNormal, offset, bounds)`.  Note the final
`return {vertices: polygon, edgeLoop: polygon}`: the edge loop IS the
polygon vertex list, with no closing repeat of the first vertex. -/
def clipPlaneToBox (planeNormal : Vec3) (offset bounds : ℚ) : ClipResult :=
  match clipLoop (boxClipPlanes bounds) (initialQuad planeNormal offset bounds) with
  | none => ⟨[], []⟩
  | some poly => ⟨poly, poly⟩

/-- The polygon after the first `k` clip stages, ignoring the early return
(used to state when the early return triggers). -/
def runningClip (planes : List (Vec3 × ℚ)) (poly : List Vec3) (k : ℕ) : List Vec3 :=
  (planes.take k).foldl (fun p cp => clipPolygonByPlane p cp.1 cp.2) poly

/-- Claim C6 (counterexample): for `normal = (0,0,1)`, `offset = 0`,
`bounds = 5`, the returned edge loop is the 4-vertex square with NO closing
repeat: its last entry differs from its first, so the loop is not closed by
repeating the first vertex (the rendering layer appends that copy itself). -/
theorem clipPlane_edgeLoop_counterexample_C6 :
    (clipPlaneToBox ⟨0, 0, 1⟩ 0 5).edgeLoop =
        [⟨-5, 5, 0⟩, ⟨-5, -5, 0⟩, ⟨5, -5, 0⟩, ⟨5, 5, 0⟩] ∧
      (clipPlaneToBox ⟨0, 0, 1⟩ 0 5).edgeLoop.getLast? ≠
        (clipPlaneToBox ⟨0, 0, 1⟩ 0 5).edgeLoop.head? := by
  set_option maxRecDepth 100000 in with_unfolding_all decide

/-- Claim C6 (amended): for the plane through the origin aligned with a box
face axis, the returned edge loop equals the polygon vertex list (it is not
explicitly closed — callers append a copy of the first vertex), and it has
at least 3 (here exactly 4) distinct vertices, all inside the box face
(`|x| ≤ 5`, `|y| ≤ 5`, `z = 0`). -/
theorem clipPlane_edgeLoop_C6 :
    (clipPlaneToBox ⟨0, 0, 1⟩ 0 5).edgeLoop = (clipPlaneToBox ⟨0, 0, 1⟩ 0 5).vertices ∧
      (clipPlaneToBox ⟨0, 0, 1⟩ 0 5).vertices.Nodup ∧
      3 ≤ (clipPlaneToBox ⟨0, 0, 1⟩ 0 5).vertices.length ∧
      ∀ v ∈ (clipPlaneToBox ⟨0, 0, 1⟩ 0 5).vertices, |v.x| ≤ 5 ∧ |v.y| ≤ 5 ∧ v.z = 0 := by
  set_option maxRecDepth 100000 in with_unfolding_all decide

theorem mem_clipPolygonByPlane (P : List Vec3) (n : Vec3) (d : ℚ) :
    ∀ v ∈ clipPolygonByPlane P n d,
      v ∈ P ∨ ∃ a b, a ∈ P ∧ b ∈ P ∧ v = intersectEdgePlane a b n d := by
  intro v hv
  unfold clipPolygonByPlane at hv
  by_cases h0 : P.length = 0
  · rw [if_pos h0] at hv
    exact absurd hv (List.not_mem_nil v)
  · rw [if_neg h0] at hv
    rw [List.mem_flatMap] at hv
    obtain ⟨i, hi, hv⟩ := hv
    rw [List.mem_range] at hi
    have hpos : 0 < P.length := Nat.pos_of_ne_zero h0
    have hcur : P.getD i ⟨0, 0, 0⟩ ∈ P := by
      rw [List.getD_eq_getElem _ _ hi]
      exact List.getElem_mem hi
    have hin : (i + 1) % P.length < P.length := Nat.mod_lt _ hpos
    have hnext : P.getD ((i + 1) % P.length) ⟨0, 0, 0⟩ ∈ P := by
      rw [List.getD_eq_getElem _ _ hin]
      exact List.getElem_mem hin
    by_cases h1 : dot (P.getD i ⟨0, 0, 0⟩) n ≤ d + 1/1000
    · rw [if_pos h1] at hv
      rcases List.mem_cons.mp hv with rfl | hv'
      · exact Or.inl hcur
      · by_cases h2 : dot (P.getD ((i + 1) % P.length) ⟨0, 0, 0⟩) n ≤ d + 1/1000
        · rw [if_pos h2] at hv'
          exact absurd hv' (List.not_mem_nil v)
        · rw [if_neg h2, List.mem_singleton] at hv'
          exact Or.inr ⟨_, _, hcur, hnext, hv'⟩
    · rw [if_neg h1] at hv
      by_cases h2 : dot (P.getD ((i + 1) % P.length) ⟨0, 0, 0⟩) n ≤ d + 1/1000
      · rw [if_pos h2, List.mem_singleton] at hv
        exact Or.inr ⟨_, _, hcur, hnext, hv⟩
      · rw [if_neg h2] at hv
        exact absurd hv (List.not_mem_nil v)

/-- One clip stage preserves "all vertices have z-coordinate `dz`":
original vertices keep it, and edge/plane intersections are affine
combinations of two such vertices (for any crossing parameter `t`). -/
theorem clip_preserves_z (P : List Vec3) (n : Vec3) (d dz : ℚ)
    (hz : ∀ v ∈ P, v.z = dz) :
    ∀ v ∈ clipPolygonByPlane P n d, v.z = dz := by
  intro v hv
  rcases mem_clipPolygonByPlane P n d v hv with h | ⟨a, b, ha, hb, rfl⟩
  · exact hz v h
  · show (intersectEdgePlane a b n d).z = dz
    unfold intersectEdgePlane
    simp only
    rw [hz a ha, hz b hb]
    ring

/-- A clip stage against a half-space that every vertex violates outputs
the empty polygon. -/
theorem clip_all_outside (P : List Vec3) (n : Vec3) (d : ℚ)
    (h : ∀ v ∈ P, ¬ dot v n ≤ d + 1/1000) : clipPolygonByPlane P n d = [] := by
  unfold clipPolygonByPlane
  by_cases h0 : P.length = 0
  · rw [if_pos h0]
  · rw [if_neg h0]
    have hpos : 0 < P.length := Nat.pos_of_ne_zero h0
    apply List.flatMap_eq_nil_iff.mpr
    intro i hi
    rw [List.mem_range] at hi
    have hcur : P.getD i ⟨0, 0, 0⟩ ∈ P := by
      rw [List.getD_eq_getElem _ _ hi]
      exact List.getElem_mem hi
    have hin : (i + 1) % P.length < P.length := Nat.mod_lt _ hpos
    have hnext : P.getD ((i + 1) % P.length) ⟨0, 0, 0⟩ ∈ P := by
      rw [List.getD_eq_getElem _ _ hin]
      exact List.getElem_mem hin
    rw [if_neg (h _ hcur), if_neg (h _ hnext)]

/-- If some listed clip plane rejects every vertex of z-level `dz`, and the
running polygon keeps z-level `dz`, the loop ends in the early return. -/
theorem clipLoop_z_kill :
    ∀ (planes : List (Vec3 × ℚ)) (P : List Vec3) (dz : ℚ),
      (∀ v ∈ P, v.z = dz) →
      (∃ cp ∈ planes, ∀ v : Vec3, v.z = dz → ¬ dot v cp.1 ≤ cp.2 + 1/1000) →
      clipLoop planes P = none := by
  intro planes
  induction planes with
  | nil =>
    rintro P dz _ ⟨cp, hcp, _⟩
    exact absurd hcp (List.not_mem_nil cp)
  | cons c rest ih =>
    rintro P dz hz ⟨cp, hcp, hkill⟩
    show (if (clipPolygonByPlane P c.1 c.2).length < 3 then none
        else clipLoop rest (clipPolygonByPlane P c.1 c.2)) = none
    rcases List.mem_cons.mp hcp with rfl | hcp'
    · have hnil : clipPolygonByPlane P cp.1 cp.2 = [] :=
        clip_all_outside P cp.1 cp.2 fun v hv => hkill v (hz v hv)
      rw [hnil]
      norm_num
    · by_cases hlen : (clipPolygonByPlane P c.1 c.2).length < 3
      · rw [if_pos hlen]
      · rw [if_neg hlen]
        exact ih _ dz (clip_preserves_z P c.1 c.2 dz hz) ⟨cp, hcp', hkill⟩

/-- If some prefix of the clip stages already leaves fewer than 3 vertices,
the loop ends in the early return. -/
theorem clipLoop_short :
    ∀ (planes : List (Vec3 × ℚ)) (P : List Vec3),
      (∃ k, 1 ≤ k ∧ k ≤ planes.length ∧ (runningClip planes P k).length < 3) →
      clipLoop planes P = none := by
  intro planes
  induction planes with
  | nil =>
    rintro P ⟨k, hk1, hk2, -⟩
    rw [List.length_nil] at hk2
    omega
  | cons c rest ih =>
    rintro P ⟨k, hk1, hk2, hshort⟩
    show (if (clipPolygonByPlane P c.1 c.2).length < 3 then none
        else clipLoop rest (clipPolygonByPlane P c.1 c.2)) = none
    by_cases hlen : (clipPolygonByPlane P c.1 c.2).length < 3
    · rw [if_pos hlen]
    · rw [if_neg hlen]
      have hstep : ∀ j, runningClip (c :: rest) P (j + 1) =
          runningClip rest (clipPolygonByPlane P c.1 c.2) j := by
        intro j
        simp [runningClip, List.take_succ_cons]
      rcases Nat.lt_or_ge k 2 with hk | hk
      · have hk1' : k = 1 := by omega
        subst hk1'
        rw [hstep 0] at hshort
        have : runningClip rest (clipPolygonByPlane P c.1 c.2) 0 =
            clipPolygonByPlane P c.1 c.2 := by
          simp [runningClip]
        rw [this] at hshort
        exact absurd hshort hlen
      · apply ih
        refine ⟨k - 1, by omega, ?_, ?_⟩
        · rw [List.length_cons] at hk2
          omega
        · have : k - 1 + 1 = k := by omega
          rw [← hstep (k - 1), this]
          exact hshort

/-- Claim C7: if during the sequential clipping against the 6 box
half-spaces the running polygon ever has fewer than 3 vertices,
`clipPlaneToBox` returns the empty polygon (empty vertex list and empty
edge loop) rather than an error; in particular a plane with
`offset > bounds × 3` (entirely outside the box) yields the empty result
(stated for the face-axis normal `(0,0,1)`; `bounds > 1/2000` makes the
`ε = 0.001` inside-test irrelevant). -/
theorem clipPlaneToBox_empty_C7 :
    (∀ (n : Vec3) (offset bounds : ℚ),
        (∃ k, 1 ≤ k ∧ k ≤ 6 ∧
          (runningClip (boxClipPlanes bounds) (initialQuad n offset bounds) k).length < 3) →
        clipPlaneToBox n offset bounds = ⟨[], []⟩) ∧
    (∀ offset bounds : ℚ, 1/2000 < bounds → 3 * bounds < offset →
        clipPlaneToBox ⟨0, 0, 1⟩ offset bounds = ⟨[], []⟩) := by
  constructor
  · intro n offset bounds hex
    have hnone : clipLoop (boxClipPlanes bounds) (initialQuad n offset bounds) = none := by
      apply clipLoop_short
      obtain ⟨k, hk1, hk2, hshort⟩ := hex
      exact ⟨k, hk1, by rw [show (boxClipPlanes bounds).length = 6 from rfl]; omega, hshort⟩
    unfold clipPlaneToBox
    rw [hnone]
  · intro offset bounds hb hoff
    have ht : planeTangents ⟨0, 0, 1⟩ = (⟨0, 1, 0⟩, ⟨-1, 0, 0⟩) := by
      with_unfolding_all decide
    have hquad : initialQuad ⟨0, 0, 1⟩ offset bounds =
        [⟨bounds * 3, -(bounds * 3), offset⟩, ⟨bounds * 3, bounds * 3, offset⟩,
         ⟨-(bounds * 3), bounds * 3, offset⟩, ⟨-(bounds * 3), -(bounds * 3), offset⟩] := by
      rw [initialQuad, ht]
      simp only [add, scale]
      norm_num
    have hz : ∀ v ∈ initialQuad ⟨0, 0, 1⟩ offset bounds, v.z = offset := by
      rw [hquad]
      intro v hv
      rcases List.mem_cons.mp hv with rfl | hv
      · rfl
      rcases List.mem_cons.mp hv with rfl | hv
      · rfl
      rcases List.mem_cons.mp hv with rfl | hv
      · rfl
      rcases List.mem_cons.mp hv with rfl | hv
      · rfl
      exact absurd hv (List.not_mem_nil v)
    have hnone : clipLoop (boxClipPlanes bounds) (initialQuad ⟨0, 0, 1⟩ offset bounds)
        = none := by
      apply clipLoop_z_kill _ _ offset hz
      refine ⟨(⟨0, 0, 1⟩, bounds), by simp [boxClipPlanes], ?_⟩
      intro v hvz
      show ¬ dot v ⟨0, 0, 1⟩ ≤ bounds + 1/1000
      unfold dot
      simp only
      rw [show v.x * 0 + v.y * 0 + v.z * 1 = v.z by ring, hvz]
      intro hle
      linarith
    unfold clipPlaneToBox
    rw [hnone]

/-- Witness for C7 at `offset = 16`, `bounds = 5`. -/
theorem clipPlaneToBox_empty_C7_witness :
    ((1/2000 : ℚ) < 5 ∧ (3 : ℚ) * 5 < 16) ∧
      clipPlaneToBox ⟨0, 0, 1⟩ 16 5 = ⟨[], []⟩ :=
  ⟨⟨by norm_num, by norm_num⟩,
    clipPlaneToBox_empty_C7.2 16 5 (by norm_num) (by norm_num)⟩

end CrystalLattice
